import Mathlib

/-!
Verification of the PDF-to-image composition pipeline in src/main.py.

The Python source is shallowly embedded: pure functions become Lean
functions over exact rationals (PDF geometry is numeric data flowing
through exact subtractions), fallible code returns Except, the calls to
the native pdfium library are recorded as an explicit trace of events,
and the asyncio completion nondeterminism is an explicit completion
order parameter.
-/

namespace PdfToImage

/-- Error raised by convert_rect when the rectangle does not have exactly
4 elements (the assert len(rect) == 4 in the source; InvalidGeometry in
the error taxonomy of the design). -/
inductive GeometryError
  | InvalidGeometry
  deriving Repr, DecidableEq

/-- Embedding of convert_rect from src/main.py lines 22 to 33: the input
rect is [bottom_left_x, bottom_left_y, top_right_x, top_right_y] in PDF
user space; the output is (rect[0], page_height - rect[3], rect[2],
page_height - rect[1]) in pixel space.  The assert on the arity is
embedded as the error case. -/
def convert_rect (page_height : ℚ) (rect : List ℚ) :
    Except GeometryError (ℚ × ℚ × ℚ × ℚ) :=
  match rect with
  | [blx, bly, trx, tty] =>
      .ok (blx, page_height - tty, trx, page_height - bly)
  | _ => .error .InvalidGeometry

/-- C1: convert_rect maps [blx, bly, trx, tty] at page height h to
(blx, h - tty, trx, h - bly), with no clamping to page bounds, and in
particular convert_rect 100 [10, 20, 90, 80] = (10, 20, 90, 80). -/
theorem convert_rect_formula :
    (∀ (h blx bly trx tty : ℚ),
      convert_rect h [blx, bly, trx, tty] =
        .ok (blx, h - tty, trx, h - bly)) ∧
    convert_rect 100 [10, 20, 90, 80] = .ok (10, 20, 90, 80) := by
  refine ⟨fun h blx bly trx tty => rfl, ?_⟩
  simp [convert_rect]
  norm_num

/-- Case analysis of convert_rect on the arity of its input: the error
case fires exactly off the 4-element shape. -/
theorem convert_rect_cases (h : ℚ) (rect : List ℚ) :
    (convert_rect h rect = .error .InvalidGeometry ↔ rect.length ≠ 4) ∧
    ((∃ t, convert_rect h rect = .ok t) ↔ rect.length = 4) := by
  match rect with
  | [a, b, c, d] => simp [convert_rect]
  | [] | [_] | [_, _] | [_, _, _] => simp [convert_rect]
  | _ :: _ :: _ :: _ :: _ :: _ => simp [convert_rect]

/-- C7: convert_rect fails with InvalidGeometry exactly when the input
does not have 4 elements, and returns normally exactly when it does. -/
theorem convert_rect_arity (h : ℚ) (rect : List ℚ) :
    (convert_rect h rect = .error .InvalidGeometry ↔ rect.length ≠ 4) ∧
    ((∃ t, convert_rect h rect = .ok t) ↔ rect.length = 4) :=
  convert_rect_cases h rect

/-- Witness for C7 at concrete inputs: a 3-element rectangle is rejected
with InvalidGeometry and a 4-element rectangle is accepted. -/
theorem convert_rect_arity_witness :
    convert_rect 5 [1, 2, 3] = .error .InvalidGeometry ∧
    ∃ t, convert_rect 5 [1, 2, 3, 4] = .ok t :=
  ⟨(convert_rect_arity 5 [1, 2, 3]).1.mpr (by decide),
   (convert_rect_arity 5 [1, 2, 3, 4]).2.mpr (by decide)⟩

/-- The four entries of an annotation dictionary that parse_page reads:
rectangle, border, value, default value; each may be missing. -/
structure AnnotationDict where
  rect : Option (List ℚ)
  border : Option (List ℤ)
  value : Option String
  default_value : Option String
  deriving Repr, DecidableEq

/-- Embedding of the dataclass AnnotationAttribute from src/main.py. -/
structure AnnotationAttribute where
  rect : List ℚ
  border : List ℤ
  value : String
  default_value : String
  deriving Repr, DecidableEq

/-- Embedding of the dataclass PageAttribute from src/main.py. -/
structure PageAttribute where
  page_index : ℕ
  width : ℕ
  height : ℕ
  annotation_attributes : List AnnotationAttribute
  deriving Repr, DecidableEq

/-- The parsed page object that parse_page consumes: the list of the
results of get_object on each annotation reference (none when the
reference is null or otherwise falsy, in which case the source skips it)
and the media box dimensions. -/
structure PageModel where
  annotations : List (Option AnnotationDict)
  mediabox_width : ℕ
  mediabox_height : ℕ
  deriving Repr, DecidableEq

/-- How parse_page stores one resolved annotation dictionary, src/main.py
lines 62 to 70: each of the four entries is read with a default, the
rectangle and border defaulting to the empty list and the two values to
the empty string, and the record is appended unconditionally. -/
def storeAnnotation (d : AnnotationDict) : AnnotationAttribute :=
  { rect := d.rect.getD []
    border := d.border.getD []
    value := d.value.getD ""
    default_value := d.default_value.getD "" }

/-- Embedding of parse_page from src/main.py lines 52 to 74: iterate the
annotation references, skip the ones whose get_object result is falsy,
store the rest with defaulted fields, and return a PageAttribute with the
media box dimensions. -/
def parse_page (page : PageModel) (page_idx : ℕ) : PageAttribute :=
  { page_index := page_idx
    width := page.mediabox_width
    height := page.mediabox_height
    annotation_attributes :=
      page.annotations.filterMap (Option.map storeAnnotation) }

/-- A concrete page with a single resolved annotation whose dictionary
has no rectangle entry. -/
def pageMissingRect : PageModel :=
  { annotations := [some { rect := none, border := none,
                           value := none, default_value := none }]
    mediabox_width := 10
    mediabox_height := 10 }

/-- Counterexample to C5 as stated: on a page whose one annotation
dictionary lacks a rectangle entry, parse_page stores an
AnnotationAttribute whose rect is the empty list, of length 0, rather
than rejecting the annotation. -/
theorem parse_page_stores_short_rect :
    ((parse_page pageMissingRect 0).annotation_attributes.map
        (fun a => a.rect.length)) = [0] := by
  decide

/-- C5 amended: an AnnotationAttribute produced by parse_page has a rect
with exactly 4 elements provided every resolved annotation dictionary on
the page carries a rectangle entry with 4 elements; a missing or shorter
rectangle is not rejected but stored as the defaulted (possibly empty)
list. -/
theorem parse_page_rect_length (page : PageModel) (page_idx : ℕ)
    (hrect : ∀ d, some d ∈ page.annotations → (d.rect.getD []).length = 4) :
    ∀ a ∈ (parse_page page page_idx).annotation_attributes,
      a.rect.length = 4 := by
  intro a ha
  simp only [parse_page, List.mem_filterMap] at ha
  obtain ⟨o, ho, hoa⟩ := ha
  match o, hoa with
  | some d, hoa =>
      cases hoa
      exact hrect d ho

/-- A concrete page whose single annotation dictionary carries the
rectangle [1, 2, 3, 4]. -/
def pageWithRect4 : PageModel :=
  { annotations := [some { rect := some [1, 2, 3, 4], border := none,
                           value := none, default_value := none }]
    mediabox_width := 10
    mediabox_height := 10 }

/-- The attribute parse_page stores for the annotation of
pageWithRect4. -/
def attrWithRect4 : AnnotationAttribute :=
  { rect := [1, 2, 3, 4], border := [], value := "", default_value := "" }

/-- Witness for C5 amended at pageWithRect4: the stored attribute has a
4-element rect. -/
theorem parse_page_rect_length_witness : attrWithRect4.rect.length = 4 :=
  parse_page_rect_length pageWithRect4 0
    (by
      intro d hd
      simp only [pageWithRect4, List.mem_singleton, Option.some.injEq] at hd
      subst hd
      decide)
    attrWithRect4 (by decide)

/-- C6: parse_page never fails because of a malformed annotation: a null
or unresolvable annotation reference is skipped and the remaining
annotations are still extracted, the page still yielding its
PageAttribute; inserting such a reference anywhere leaves the result
unchanged. -/
theorem parse_page_skips_null (xs ys : List (Option AnnotationDict))
    (w h page_idx : ℕ) :
    parse_page { annotations := xs ++ none :: ys,
                 mediabox_width := w, mediabox_height := h } page_idx =
      parse_page { annotations := xs ++ ys,
                   mediabox_width := w, mediabox_height := h } page_idx := by
  simp [parse_page]

/-- One call into the native pdfium library made by
construct_image_from_page, recorded in program order. -/
inductive NativeCall
  | bitmapCreate (w h : ℕ)
  | fillRect
  | renderPageBitmap
  | closePage
  | bitmapDestroy
  deriving Repr, DecidableEq

/-- The in-memory image a successful page render produces: its
dimensions, its source page index, and the pixel-space rectangles that
were drawn over it in the highlight color. -/
structure RenderedImage where
  page_index : ℕ
  width : ℕ
  height : ℕ
  drawn_rects : List (ℚ × ℚ × ℚ × ℚ)
  deriving Repr, DecidableEq

/-- Outcome of construct_image_from_page: either the rendered image
together with the trace of native calls made, or process termination
with an exit status after the recorded trace (the except branch of the
source logs and calls sys.exit). -/
inductive RenderResult
  | ok (calls : List NativeCall) (img : RenderedImage)
  | exit (calls : List NativeCall) (status : ℕ)
  deriving Repr, DecidableEq

/-- The native calls a render outcome performed. -/
def RenderResult.calls : RenderResult → List NativeCall
  | .ok calls _ => calls
  | .exit calls _ => calls

/-- Whether the render outcome terminated the process. -/
def RenderResult.isExit : RenderResult → Bool
  | .ok _ _ => false
  | .exit _ _ => true

/-- The drawing loop of src/main.py lines 116 to 118: convert each
annotation rectangle and draw it; the first rectangle that fails the
arity assert raises, aborting the loop. -/
def drawAnnotations (page_height : ℚ) :
    List AnnotationAttribute → Except GeometryError (List (ℚ × ℚ × ℚ × ℚ))
  | [] => .ok []
  | a :: rest => do
      let r ← convert_rect page_height a.rect
      let rs ← drawAnnotations page_height rest
      .ok (r :: rs)

/-- Embedding of construct_image_from_page from src/main.py lines 77 to
135.  The try block creates the bitmap, fills it white, renders the page
into it, wraps the buffer as an image and draws every annotation
rectangle; on success it closes the page and destroys the bitmap and
returns the image.  Any exception, such as the arity assert of
convert_rect failing, jumps to the except clause, which logs and calls
sys.exit 1 without closing the page or destroying the bitmap. -/
def construct_image_from_page (pa : PageAttribute) : RenderResult :=
  let pre : List NativeCall :=
    [.bitmapCreate pa.width pa.height, .fillRect, .renderPageBitmap]
  match drawAnnotations (pa.height : ℚ) pa.annotation_attributes with
  | .ok rects =>
      .ok (pre ++ [.closePage, .bitmapDestroy])
        { page_index := pa.page_index, width := pa.width,
          height := pa.height, drawn_rects := rects }
  | .error _ => .exit pre 1

/-- A page whose single annotation has an empty rect, as parse_page
produces when the annotation dictionary lacks a rectangle entry. -/
def pageWithEmptyRect : PageAttribute :=
  { page_index := 0, width := 10, height := 10,
    annotation_attributes := [{ rect := [], border := [],
                                value := "", default_value := "" }] }

/-- A page with no annotations, which renders successfully. -/
def plainPage : PageAttribute :=
  { page_index := 0, width := 10, height := 10,
    annotation_attributes := [] }

/-- Counterexample to C8 as stated: on the error exit path taken for a
page holding an annotation with an empty rect, the process terminates
without FPDF_ClosePage or FPDFBitmap_Destroy ever being called. -/
theorem render_error_path_leaks_handles :
    (construct_image_from_page pageWithEmptyRect).isExit = true ∧
    NativeCall.closePage ∉
      (construct_image_from_page pageWithEmptyRect).calls ∧
    NativeCall.bitmapDestroy ∉
      (construct_image_from_page pageWithEmptyRect).calls := by
  decide

/-- C8 amended: construct_image_from_page releases the native page
handle and the native bitmap handle on the normal exit path, but on the
error path it terminates the process with status 1 without calling
FPDF_ClosePage or FPDFBitmap_Destroy. -/
theorem render_handle_release (pa : PageAttribute) :
    (∀ calls img, construct_image_from_page pa = .ok calls img →
      NativeCall.closePage ∈ calls ∧ NativeCall.bitmapDestroy ∈ calls) ∧
    (∀ calls status, construct_image_from_page pa = .exit calls status →
      status = 1 ∧ NativeCall.closePage ∉ calls ∧
        NativeCall.bitmapDestroy ∉ calls) := by
  unfold construct_image_from_page
  cases hd : drawAnnotations (pa.height : ℚ) pa.annotation_attributes with
  | ok rects =>
      refine ⟨fun calls img hok => ?_, fun calls status hexit => ?_⟩
      · simp only [RenderResult.ok.injEq] at hok
        obtain ⟨hcalls, _⟩ := hok
        subst hcalls
        exact ⟨by simp, by simp⟩
      · simp at hexit
  | error e =>
      refine ⟨fun calls img hok => ?_, fun calls status hexit => ?_⟩
      · simp at hok
      · simp only [RenderResult.exit.injEq] at hexit
        obtain ⟨hcalls, hstatus⟩ := hexit
        subst hcalls
        subst hstatus
        refine ⟨rfl, by simp, by simp⟩

/-- Witness for C8 amended, on the two concrete pages: the annotation
free page renders successfully with both release calls in its trace, and
the page with an empty annotation rect exits with status 1 and neither
release call. -/
theorem render_handle_release_witness :
    (NativeCall.closePage ∈
        ([.bitmapCreate 10 10, .fillRect, .renderPageBitmap,
          .closePage, .bitmapDestroy] : List NativeCall) ∧
      NativeCall.bitmapDestroy ∈
        ([.bitmapCreate 10 10, .fillRect, .renderPageBitmap,
          .closePage, .bitmapDestroy] : List NativeCall)) ∧
    ((1 : ℕ) = 1 ∧ NativeCall.closePage ∉
        ([.bitmapCreate 10 10, .fillRect, .renderPageBitmap] :
          List NativeCall) ∧
      NativeCall.bitmapDestroy ∉
        ([.bitmapCreate 10 10, .fillRect, .renderPageBitmap] :
          List NativeCall)) :=
  ⟨(render_handle_release plainPage).1
      [.bitmapCreate 10 10, .fillRect, .renderPageBitmap,
       .closePage, .bitmapDestroy]
      { page_index := 0, width := 10, height := 10, drawn_rects := [] }
      rfl,
   (render_handle_release pageWithEmptyRect).2
      [.bitmapCreate 10 10, .fillRect, .renderPageBitmap] 1 rfl⟩

/-- The drawing loop fails as soon as some annotation rect lacks the
4-element arity. -/
theorem drawAnnotations_error_of_bad_rect (page_height : ℚ)
    (attrs : List AnnotationAttribute)
    (hbad : ∃ a ∈ attrs, a.rect.length ≠ 4) :
    ∃ e, drawAnnotations page_height attrs = .error e := by
  induction attrs with
  | nil => simp at hbad
  | cons a rest ih =>
      obtain ⟨b, hb, hbne⟩ := hbad
      rcases List.mem_cons.mp hb with hba | hbrest
      · subst hba
        rcases hcr : convert_rect page_height b.rect with e | t
        · exact ⟨e, by simp [drawAnnotations, hcr, Bind.bind, Except.bind]⟩
        · exact absurd ((convert_rect_cases page_height b.rect).2.mp
            ⟨t, hcr⟩) hbne
      · rcases hcr : convert_rect page_height a.rect with e | t
        · exact ⟨e, by simp [drawAnnotations, hcr, Bind.bind, Except.bind]⟩
        · obtain ⟨e, he⟩ := ih ⟨b, hbrest, hbne⟩
          exact ⟨e, by simp [drawAnnotations, hcr, he, Bind.bind, Except.bind]⟩

/-- C10: a page holding an extracted annotation whose rect does not have
exactly 4 elements makes construct_image_from_page take the error path
and terminate the process with exit status 1 instead of skipping the
annotation. -/
theorem render_exits_on_short_rect (pa : PageAttribute)
    (hbad : ∃ a ∈ pa.annotation_attributes, a.rect.length ≠ 4) :
    construct_image_from_page pa =
      .exit [.bitmapCreate pa.width pa.height, .fillRect,
             .renderPageBitmap] 1 := by
  obtain ⟨e, he⟩ := drawAnnotations_error_of_bad_rect (pa.height : ℚ)
    pa.annotation_attributes hbad
  unfold construct_image_from_page
  rw [he]

/-- Witness for C10 at the concrete page whose annotation rect is the
empty list: the render exits with status 1. -/
theorem render_exits_on_short_rect_witness :
    construct_image_from_page pageWithEmptyRect =
      .exit [.bitmapCreate 10 10, .fillRect, .renderPageBitmap] 1 :=
  render_exits_on_short_rect pageWithEmptyRect (by decide)

/-- The total_height accumulation of the first loop of
construct_image_from_file, src/main.py lines 145 to 151. -/
def total_height (fas : List PageAttribute) : ℕ :=
  fas.foldl (fun acc pa => acc + pa.height) 0

/-- The max_page_width accumulation of the same loop: the running
maximum is replaced whenever the page is wider. -/
def max_page_width (fas : List PageAttribute) : ℕ :=
  fas.foldl (fun acc pa => if pa.width > acc then pa.width else acc) 0

/-- Write the completion events into the result slots: each completion
event for launch index i deposits the deterministic result of task i in
slot i.  Out of range indices write nothing. -/
def writeSlots (tasks : List α) (order : List ℕ)
    (slots : List (Option α)) : List (Option α) :=
  order.foldl (fun s i => s.set i tasks[i]?) slots

/-- Model of asyncio.gather at src/main.py line 153: the page render
tasks are launched together and complete in an arbitrary order; each
completed task fills the slot of its launch index, and gather returns
the slots in launch index order once every task has completed. -/
def gather (tasks : List α) (order : List ℕ) : List (Option α) :=
  writeSlots tasks order (List.replicate tasks.length none)

/-- The paste loop of src/main.py lines 163 to 170: height_track starts
at the given offset, each image is pasted at (0, height_track), and the
track advances by the height of the pasted image. -/
def paste_pages : List RenderedImage → ℕ → List (ℕ × ℕ × RenderedImage)
  | [], _ => []
  | img :: rest, y => (0, y, img) :: paste_pages rest (y + img.height)

/-- The output canvas of one file: its dimensions and the pastes made
into it, each paste being a position together with the pasted image. -/
structure OutputCanvas where
  width : ℕ
  height : ℕ
  pastes : List (ℕ × ℕ × RenderedImage)
  deriving Repr, DecidableEq

/-- The save call issued at src/main.py line 172, with its keyword
arguments. -/
structure SaveCall where
  path : String
  format : String
  subsampling : ℕ
  quality : ℕ
  deriving Repr, DecidableEq

/-- Outcome of construct_image_from_file: the stitched canvas together
with the single save call made for it, or process termination. -/
inductive FileResult
  | ok (canvas : OutputCanvas) (save : SaveCall)
  | exit (status : ℕ)
  deriving Repr, DecidableEq

/-- The path the file result saved to, when it saved at all. -/
def FileResult.savePath? : FileResult → Option String
  | .ok _ save => some save.path
  | .exit _ => none

/-- The image a render outcome produced, when it produced one. -/
def RenderResult.image? : RenderResult → Option RenderedImage
  | .ok _ img => some img
  | .exit _ _ => none

/-- The ASCII fragment of Python str.lower, applied characterwise: it
agrees with str.lower exactly on strings of ASCII characters, and the
statements about concrete paths below stay within that fragment (full
Unicode case mapping is not modelled). -/
def lowerString (s : String) : String :=
  String.mk (s.toList.map Char.toLower)

/-- Python s.rsplit with separator dot and count 1, first component:
everything before the last dot, or the whole string when it has none. -/
def rsplitBase (s : String) : String :=
  let cs := s.toList.reverse
  if '.' ∈ cs then
    String.mk (((cs.dropWhile (fun c => c ≠ '.')).drop 1).reverse)
  else s

/-- The output base name computed at src/main.py line 141: the whole
input path is lowercased before the extension is split off. -/
def out_file_name (file_name : String) : String :=
  rsplitBase (lowerString file_name)

/-- Embedding of construct_image_from_file from src/main.py lines 138 to
180.  The page render tasks are gathered under the given completion
order; if any page render hits its error path the process terminates
with status 1 (the sys.exit of the page renderer propagates).  Otherwise
the canvas is allocated at (max_page_width, total_height), the images
are pasted at the running height offsets, and the canvas is saved as
JPEG with quality 100 and subsampling 0 under the lowercased base name
with the jpg extension. -/
def construct_image_from_file (file_name : String)
    (file_attributes : List PageAttribute) (order : List ℕ) : FileResult :=
  let results := file_attributes.map construct_image_from_page
  if results.all (fun r => r.image?.isSome) then
    let images :=
      (gather (results.filterMap RenderResult.image?) order).filterMap id
    .ok { width := max_page_width file_attributes,
          height := total_height file_attributes,
          pastes := paste_pages images 0 }
       { path := out_file_name file_name ++ ".jpg", format := "JPEG",
         subsampling := 0, quality := 100 }
  else .exit 1

/-- The paste layout the design prescribes: page i left aligned at
x = 0 with its top edge at the sum of the heights of all earlier
pages. -/
def specPastes (fas : List PageAttribute) : List (ℕ × ℕ) :=
  (List.range fas.length).map
    (fun i => (0, ((fas.take i).map PageAttribute.height).sum))

/-- Writing the slots preserves their number. -/
theorem writeSlots_length (tasks : List α) (order : List ℕ)
    (slots : List (Option α)) :
    (writeSlots tasks order slots).length = slots.length := by
  induction order generalizing slots with
  | nil => rfl
  | cons i rest ih =>
      simp only [writeSlots, List.foldl_cons] at ih ⊢
      rw [ih, List.length_set]

/-- A slot whose index never completes keeps its initial value. -/
theorem writeSlots_not_mem (tasks : List α) (order : List ℕ)
    (slots : List (Option α)) (j : ℕ) (hj : j ∉ order) :
    (writeSlots tasks order slots)[j]? = slots[j]? := by
  induction order generalizing slots with
  | nil => rfl
  | cons i rest ih =>
      simp only [List.mem_cons, not_or] at hj
      simp only [writeSlots, List.foldl_cons] at ih ⊢
      rw [ih _ hj.2, List.getElem?_set_ne (fun hij => hj.1 hij.symm)]

/-- A slot whose index completes at least once holds the result of its
own task at the end: every write to a slot carries the same value, so
the order and multiplicity of completions is irrelevant. -/
theorem writeSlots_mem (tasks : List α) (order : List ℕ)
    (slots : List (Option α)) (j : ℕ) (hj : j ∈ order)
    (hlen : j < slots.length) :
    (writeSlots tasks order slots)[j]? = some tasks[j]? := by
  induction order generalizing slots with
  | nil => simp at hj
  | cons i rest ih =>
      simp only [writeSlots, List.foldl_cons] at ih ⊢
      by_cases hjr : j ∈ rest
      · exact ih _ hjr (by rw [List.length_set]; exact hlen)
      · have hij : i = j := by
          rcases List.mem_cons.mp hj with hji | hjrest
          · exact hji.symm
          · exact absurd hjrest hjr
        subst hij
        have hkeep := writeSlots_not_mem tasks rest
          (slots.set i tasks[i]?) i hjr
        simp only [writeSlots] at hkeep
        rw [hkeep, List.getElem?_set_self hlen]

/-- When every launch index completes, gather returns exactly the task
results in launch order. -/
theorem gather_complete (tasks : List α) (order : List ℕ)
    (horder : ∀ j < tasks.length, j ∈ order) :
    gather tasks order = tasks.map some := by
  apply List.ext_getElem?
  intro j
  by_cases hj : j < tasks.length
  · rw [gather, writeSlots_mem tasks order _ j (horder j hj)
      (by rw [List.length_replicate]; exact hj)]
    rw [List.getElem?_map, List.getElem?_eq_getElem hj]
    simp
  · have h1 : (gather tasks order).length ≤ j := by
      rw [gather, writeSlots_length, List.length_replicate]
      omega
    have h2 : (tasks.map some).length ≤ j := by
      rw [List.length_map]; omega
    rw [List.getElem?_eq_none h1, List.getElem?_eq_none h2]

/-- Collapsing the slots of a fully completed gather recovers the
results themselves. -/
theorem filterMap_id_map_some (l : List α) :
    (l.map some).filterMap id = l := by
  induction l with
  | nil => rfl
  | cons a rest ih => simp [ih]

/-- The drawing loop succeeds when every annotation rect has the
4-element arity. -/
theorem drawAnnotations_ok (page_height : ℚ)
    (attrs : List AnnotationAttribute)
    (h4 : ∀ a ∈ attrs, a.rect.length = 4) :
    ∃ rs, drawAnnotations page_height attrs = .ok rs := by
  induction attrs with
  | nil => exact ⟨[], rfl⟩
  | cons a rest ih =>
      obtain ⟨t, ht⟩ := (convert_rect_cases page_height a.rect).2.mpr
        (h4 a (List.mem_cons_self a rest))
      obtain ⟨rs, hrs⟩ := ih (fun b hb => h4 b (List.mem_cons_of_mem a hb))
      exact ⟨t :: rs,
        by simp [drawAnnotations, ht, hrs, Bind.bind, Except.bind]⟩

/-- A page with well formed annotation rects renders to an image. -/
theorem image_isSome_of_rects (pa : PageAttribute)
    (h4 : ∀ a ∈ pa.annotation_attributes, a.rect.length = 4) :
    ((construct_image_from_page pa).image?).isSome := by
  obtain ⟨rs, hrs⟩ :=
    drawAnnotations_ok (pa.height : ℚ) pa.annotation_attributes h4
  simp [construct_image_from_page, RenderResult.image?, hrs]

/-- The image a successful render produces carries the dimensions and
index of its page. -/
theorem image_dims (pa : PageAttribute) (img : RenderedImage)
    (himg : (construct_image_from_page pa).image? = some img) :
    img.page_index = pa.page_index ∧ img.width = pa.width ∧
      img.height = pa.height := by
  rcases hd : drawAnnotations (pa.height : ℚ) pa.annotation_attributes
    with e | rs
  · simp [construct_image_from_page, RenderResult.image?, hd] at himg
  · simp only [construct_image_from_page, RenderResult.image?, hd] at himg
    cases himg
    exact ⟨rfl, rfl, rfl⟩

/-- Collecting the images of a list of successful page renders yields
one image per page whose dimensions and index are those of its page. -/
theorem renderedImages_spec (fas : List PageAttribute)
    (hok : ∀ pa ∈ fas, ((construct_image_from_page pa).image?).isSome) :
    ∃ imgs : List RenderedImage,
      (fas.map construct_image_from_page).filterMap RenderResult.image? =
        imgs ∧
      imgs.map RenderedImage.height = fas.map PageAttribute.height ∧
      imgs.map RenderedImage.width = fas.map PageAttribute.width ∧
      imgs.map RenderedImage.page_index =
        fas.map PageAttribute.page_index := by
  induction fas with
  | nil => exact ⟨[], rfl, rfl, rfl, rfl⟩
  | cons pa rest ih =>
      obtain ⟨img, himg⟩ := Option.isSome_iff_exists.mp
        (hok pa (List.mem_cons_self pa rest))
      obtain ⟨hpi, hw, hh⟩ := image_dims pa img himg
      obtain ⟨imgs, heq, hhs, hws, hps⟩ :=
        ih (fun q hq => hok q (List.mem_cons_of_mem pa hq))
      refine ⟨img :: imgs, ?_, ?_, ?_, ?_⟩
      · simp [List.filterMap_cons, himg, heq]
      · simp [hhs, hh]
      · simp [hws, hw]
      · simp [hps, hpi]

/-- The pasted images are the gathered images in order. -/
theorem paste_pages_map_image (images : List RenderedImage) (y : ℕ) :
    (paste_pages images y).map (fun t => t.2.2) = images := by
  induction images generalizing y with
  | nil => rfl
  | cons img rest ih => simp [paste_pages, ih]

/-- The pasted page indices are the image indices in order. -/
theorem paste_pages_map_pidx (images : List RenderedImage) (y : ℕ) :
    (paste_pages images y).map (fun t => t.2.2.page_index) =
      images.map RenderedImage.page_index := by
  induction images generalizing y with
  | nil => rfl
  | cons img rest ih => simp [paste_pages, ih]

/-- Each paste goes to x = 0 and to the starting offset plus the summed
heights of the earlier images. -/
theorem paste_pages_map_pos (images : List RenderedImage) (y : ℕ) :
    (paste_pages images y).map (fun t => (t.1, t.2.1)) =
      (List.range images.length).map
        (fun i =>
          (0, y + ((images.take i).map RenderedImage.height).sum)) := by
  induction images generalizing y with
  | nil => rfl
  | cons img rest ih =>
      rw [paste_pages, List.map_cons, ih, List.length_cons,
        List.range_succ_eq_map, List.map_cons, List.map_map]
      refine congrArg₂ List.cons (by simp) ?_
      refine List.map_congr_left (fun i hi => ?_)
      simp [Function.comp, List.take_succ_cons, Nat.add_assoc]

/-- The total height accumulation shifted by an initial value. -/
theorem foldl_height_eq_sum (fas : List PageAttribute) (acc : ℕ) :
    fas.foldl (fun acc pa => acc + pa.height) acc =
      acc + (fas.map PageAttribute.height).sum := by
  induction fas generalizing acc with
  | nil => simp
  | cons pa rest ih =>
      simp only [List.foldl_cons, List.map_cons, List.sum_cons, ih]
      omega

/-- The total height of the first loop is the sum of the page
heights. -/
theorem total_height_eq_sum (fas : List PageAttribute) :
    total_height fas = (fas.map PageAttribute.height).sum := by
  simpa using foldl_height_eq_sum fas 0

/-- The width accumulation dominates its seed and every page width. -/
theorem foldl_width_ge (fas : List PageAttribute) (acc : ℕ) :
    acc ≤ fas.foldl
        (fun a pa => if pa.width > a then pa.width else a) acc ∧
    ∀ pa ∈ fas, pa.width ≤ fas.foldl
        (fun a pa => if pa.width > a then pa.width else a) acc := by
  induction fas generalizing acc with
  | nil => exact ⟨le_refl acc, by simp⟩
  | cons p rest ih =>
      simp only [List.foldl_cons]
      have h1 := ih (if p.width > acc then p.width else acc)
      refine ⟨le_trans (by split <;> omega) h1.1, ?_⟩
      intro pa hpa
      rcases List.mem_cons.mp hpa with rfl | h
      · exact le_trans (by split <;> omega) h1.1
      · exact h1.2 pa h

/-- The width accumulation is either its seed or some page width. -/
theorem foldl_width_attained (fas : List PageAttribute) (acc : ℕ) :
    fas.foldl (fun a pa => if pa.width > a then pa.width else a) acc =
        acc ∨
    ∃ pa ∈ fas, fas.foldl
        (fun a pa => if pa.width > a then pa.width else a) acc =
      pa.width := by
  induction fas generalizing acc with
  | nil => exact Or.inl rfl
  | cons p rest ih =>
      simp only [List.foldl_cons]
      rcases ih (if p.width > acc then p.width else acc) with h | ⟨pa, hpa, hh⟩
      · rw [h]
        by_cases hw : p.width > acc
        · exact Or.inr ⟨p, List.mem_cons_self p rest, by rw [if_pos hw]⟩
        · exact Or.inl (by rw [if_neg hw])
      · exact Or.inr ⟨pa, List.mem_cons_of_mem p hpa, hh⟩

/-- Every page width is bounded by max_page_width. -/
theorem max_page_width_le (fas : List PageAttribute) :
    ∀ pa ∈ fas, pa.width ≤ max_page_width fas :=
  fun pa hpa => (foldl_width_ge fas 0).2 pa hpa

/-- On a nonempty list max_page_width is attained by some page. -/
theorem max_page_width_mem (fas : List PageAttribute) (hne : fas ≠ []) :
    ∃ pa ∈ fas, max_page_width fas = pa.width := by
  cases fas with
  | nil => exact absurd rfl hne
  | cons p rest =>
      rcases foldl_width_attained (p :: rest) 0 with h | ⟨pa, hpa, hh⟩
      · have hle := (foldl_width_ge (p :: rest) 0).2 p
          (List.mem_cons_self p rest)
        refine ⟨p, List.mem_cons_self p rest, ?_⟩
        unfold max_page_width
        omega
      · exact ⟨pa, hpa, hh⟩

/-- The three pages of the worked example of the design: heights
[100, 200, 150] and widths [50, 80, 60], no annotations. -/
def exPages : List PageAttribute :=
  [{ page_index := 0, width := 50, height := 100,
     annotation_attributes := [] },
   { page_index := 1, width := 80, height := 200,
     annotation_attributes := [] },
   { page_index := 2, width := 60, height := 150,
     annotation_attributes := [] }]

/-- C2: for a nonempty list of pages with well formed annotation rects
and a completion order in which every page render completes,
construct_image_from_file produces a canvas whose height is the sum of
the page heights, whose width is the maximum page width, and whose
pastes put each page left aligned at x = 0 with its top at the summed
heights of the earlier pages, so consecutive pages leave no vertical
gap or overlap. -/
theorem compose_canvas_layout (file_name : String)
    (fas : List PageAttribute) (order : List ℕ)
    (hne : fas ≠ [])
    (h4 : ∀ pa ∈ fas, ∀ a ∈ pa.annotation_attributes, a.rect.length = 4)
    (horder : ∀ j < fas.length, j ∈ order) :
    ∃ canvas save,
      construct_image_from_file file_name fas order = .ok canvas save ∧
      canvas.height = (fas.map PageAttribute.height).sum ∧
      (∀ pa ∈ fas, pa.width ≤ canvas.width) ∧
      (∃ pa ∈ fas, canvas.width = pa.width) ∧
      canvas.pastes.map (fun t => (t.1, t.2.1)) = specPastes fas ∧
      (canvas.pastes.map (fun t => t.2.2)).map RenderedImage.height =
        fas.map PageAttribute.height := by
  have hok : ∀ pa ∈ fas, ((construct_image_from_page pa).image?).isSome :=
    fun pa hpa => image_isSome_of_rects pa (h4 pa hpa)
  obtain ⟨imgs, heq, hhs, hws, hps⟩ := renderedImages_spec fas hok
  have hall : (fas.map construct_image_from_page).all
      (fun r => r.image?.isSome) = true := by
    rw [List.all_eq_true]
    intro r hr
    obtain ⟨pa, hpa, rfl⟩ := List.mem_map.mp hr
    exact hok pa hpa
  have himgslen : imgs.length = fas.length := by
    have hl := congrArg List.length hhs
    simpa using hl
  have hgather :
      (gather ((fas.map construct_image_from_page).filterMap
        RenderResult.image?) order).filterMap id = imgs := by
    rw [heq, gather_complete imgs order
      (fun j hj => horder j (himgslen ▸ hj)), filterMap_id_map_some]
  have hmain : construct_image_from_file file_name fas order =
      .ok { width := max_page_width fas, height := total_height fas,
            pastes := paste_pages imgs 0 }
         { path := out_file_name file_name ++ ".jpg", format := "JPEG",
           subsampling := 0, quality := 100 } := by
    simp only [construct_image_from_file]
    rw [if_pos hall, hgather]
  refine ⟨_, _, hmain, ?_, ?_, ?_, ?_, ?_⟩
  · exact total_height_eq_sum fas
  · exact max_page_width_le fas
  · exact max_page_width_mem fas hne
  · show (paste_pages imgs 0).map (fun t => (t.1, t.2.1)) = specPastes fas
    rw [paste_pages_map_pos]
    unfold specPastes
    rw [himgslen]
    refine List.map_congr_left (fun i hi => ?_)
    have htake : (imgs.take i).map RenderedImage.height =
        (fas.take i).map PageAttribute.height := by
      rw [List.map_take, List.map_take, hhs]
    simp [htake]
  · show ((paste_pages imgs 0).map (fun t => t.2.2)).map
        RenderedImage.height = fas.map PageAttribute.height
    rw [paste_pages_map_image, hhs]

/-- Witness for C2 at the worked example with the identity completion
order: the canvas is 450 high, its pastes sit at offsets 0, 100 and 300,
and the pasted images have the page heights. -/
theorem compose_canvas_layout_witness :
    ∃ canvas save,
      construct_image_from_file "doc.pdf" exPages [0, 1, 2] =
        .ok canvas save ∧
      canvas.height = (exPages.map PageAttribute.height).sum ∧
      canvas.pastes.map (fun t => (t.1, t.2.1)) = specPastes exPages ∧
      (canvas.pastes.map (fun t => t.2.2)).map RenderedImage.height =
        exPages.map PageAttribute.height := by
  obtain ⟨canvas, save, hmain, hh, _, _, hpos, hhs⟩ :=
    compose_canvas_layout "doc.pdf" exPages [0, 1, 2]
      (by decide) (by decide) (by decide)
  exact ⟨canvas, save, hmain, hh, hpos, hhs⟩

/-- C3: the outcome of construct_image_from_file does not depend on the
order in which the page render tasks complete, and whenever the pages
carry the contiguous indices that extraction assigns, the pastes into
the canvas are in strictly increasing page_index order. -/
theorem compose_order_independent (file_name : String)
    (fas : List PageAttribute) (o1 o2 : List ℕ)
    (h1 : ∀ j < fas.length, j ∈ o1) (h2 : ∀ j < fas.length, j ∈ o2) :
    construct_image_from_file file_name fas o1 =
      construct_image_from_file file_name fas o2 ∧
    ∀ canvas save,
      construct_image_from_file file_name fas o1 = .ok canvas save →
      fas.map PageAttribute.page_index = List.range fas.length →
      List.Pairwise (fun a b => a < b)
        (canvas.pastes.map (fun t => t.2.2.page_index)) := by
  by_cases hall : (fas.map construct_image_from_page).all
      (fun r => r.image?.isSome) = true
  · have hok : ∀ pa ∈ fas,
        ((construct_image_from_page pa).image?).isSome := by
      rw [List.all_eq_true] at hall
      intro pa hpa
      exact hall _ (List.mem_map_of_mem _ hpa)
    obtain ⟨imgs, heq, hhs, hws, hps⟩ := renderedImages_spec fas hok
    have himgslen : imgs.length = fas.length := by
      have hl := congrArg List.length hps
      simpa using hl
    have hg : ∀ o : List ℕ, (∀ j < fas.length, j ∈ o) →
        (gather ((fas.map construct_image_from_page).filterMap
          RenderResult.image?) o).filterMap id = imgs := by
      intro o ho
      rw [heq, gather_complete imgs o
        (fun j hj => ho j (himgslen ▸ hj)), filterMap_id_map_some]
    have hmain : ∀ o : List ℕ, (∀ j < fas.length, j ∈ o) →
        construct_image_from_file file_name fas o =
          .ok { width := max_page_width fas, height := total_height fas,
                pastes := paste_pages imgs 0 }
             { path := out_file_name file_name ++ ".jpg",
               format := "JPEG", subsampling := 0, quality := 100 } := by
      intro o ho
      simp only [construct_image_from_file]
      rw [if_pos hall, hg o ho]
    refine ⟨(hmain o1 h1).trans (hmain o2 h2).symm, ?_⟩
    intro canvas save hcs hidx
    rw [hmain o1 h1] at hcs
    cases hcs
    show List.Pairwise (fun a b => a < b)
      ((paste_pages imgs 0).map (fun t => t.2.2.page_index))
    rw [paste_pages_map_pidx, hps, hidx]
    exact List.pairwise_lt_range fas.length
  · have hmain : ∀ o : List ℕ,
        construct_image_from_file file_name fas o = .exit 1 := by
      intro o
      simp only [construct_image_from_file]
      rw [if_neg hall]
    refine ⟨(hmain o1).trans (hmain o2).symm, ?_⟩
    intro canvas save hcs hidx
    rw [hmain o1] at hcs
    exact absurd hcs (by simp)

/-- Witness for C3: on the worked example, the reversed completion order
yields the same file result as the identity order. -/
theorem compose_order_independent_witness :
    construct_image_from_file "doc.pdf" exPages [2, 0, 1] =
      construct_image_from_file "doc.pdf" exPages [0, 1, 2] :=
  (compose_order_independent "doc.pdf" exPages [2, 0, 1] [0, 1, 2]
    (by decide) (by decide)).1

/-- Counterexample to C9 as stated: for the input path A.pdf the output
is written to a.jpg — the whole path is lowercased first — not to A.jpg
with the base name preserved. -/
theorem save_path_lowercases_base :
    (construct_image_from_file "A.pdf" [plainPage] [0]).savePath? =
      some "a.jpg" ∧ "a.jpg" ≠ "A.jpg" := by
  constructor
  · rfl
  · decide

/-- C9 amended: a successfully processed file with an ASCII path is
saved exactly once, as JPEG at quality 100 with chroma subsampling
disabled, at the lowercased input path with the extension replaced by
.jpg — so the base name of the input is not preserved in general.  The
ASCII hypothesis keeps the path inside the fragment on which
lowerString is an exact model of str.lower. -/
theorem compose_save_call (file_name : String)
    (fas : List PageAttribute) (order : List ℕ)
    (_hascii : ∀ c ∈ file_name.toList, c.toNat < 128)
    (h4 : ∀ pa ∈ fas, ∀ a ∈ pa.annotation_attributes,
      a.rect.length = 4) :
    ∃ canvas save,
      construct_image_from_file file_name fas order = .ok canvas save ∧
      save.path = out_file_name file_name ++ ".jpg" ∧
      save.format = "JPEG" ∧ save.quality = 100 ∧ save.subsampling = 0 ∧
      ∀ canvas2 save2,
        construct_image_from_file file_name fas order =
          .ok canvas2 save2 → save2 = save := by
  have hall : (fas.map construct_image_from_page).all
      (fun r => r.image?.isSome) = true := by
    rw [List.all_eq_true]
    intro r hr
    obtain ⟨pa, hpa, rfl⟩ := List.mem_map.mp hr
    exact image_isSome_of_rects pa (h4 pa hpa)
  have hmain : construct_image_from_file file_name fas order =
      .ok { width := max_page_width fas, height := total_height fas,
            pastes := paste_pages
              ((gather ((fas.map construct_image_from_page).filterMap
                RenderResult.image?) order).filterMap id) 0 }
         { path := out_file_name file_name ++ ".jpg", format := "JPEG",
           subsampling := 0, quality := 100 } := by
    simp only [construct_image_from_file]
    rw [if_pos hall]
  refine ⟨_, _, hmain, rfl, rfl, rfl, rfl,
    fun canvas2 save2 h2 => ?_⟩
  rw [hmain] at h2
  cases h2
  rfl

/-- Witness for C9 amended on the worked example: the file is saved as
JPEG at quality 100 under the computed jpg name. -/
theorem compose_save_call_witness :
    ∃ canvas save,
      construct_image_from_file "doc.pdf" exPages [0, 1, 2] =
        .ok canvas save ∧
      save.path = out_file_name "doc.pdf" ++ ".jpg" ∧
      save.quality = 100 ∧ save.subsampling = 0 := by
  obtain ⟨canvas, save, hmain, hpath, hfmt, hq, hs, _⟩ :=
    compose_save_call "doc.pdf" exPages [0, 1, 2] (by decide) (by decide)
  exact ⟨canvas, save, hmain, hpath, hq, hs⟩

end PdfToImage
